import Mathlib

/-!
# Verification of the English-to-Libran converter and synthesizer

A shallow embedding of `src/english_to_libran_voice/converter.py` and
`src/english_to_libran_voice/synthesizer.py`.

Python strings are modelled as lists of Unicode code points (`List Nat`);
`str s` turns a Lean string literal into this representation.  The Python
string predicates and case maps (`str.lower`, `str.upper`, `str.isupper`,
`str.capitalize`, `str.isalpha`, `str.isalnum`, `str.isdigit`, `re` character
classes) are modelled on their ASCII behaviour, which is the range the
converter's dictionary, syllable table and regexes operate on.

The three regex substitutions/scans of `converter.py` (`_TOKEN_RE.findall`
and the two `re.sub` calls of `normalize_text`) are realized as explicit
left-to-right two-class character scanners, which is the semantics of the
regexes involved: a maximal run of the class is one match.
-/

namespace LibranVoice

/-- A Lean string literal as a list of code points (the model of a Python
string used throughout this development). -/
def str (s : String) : List Nat := s.data.map Char.toNat

/-- Code point of an ASCII upper-case letter `A`-`Z`. -/
def isUpperChar (n : Nat) : Bool := 65 ≤ n && n ≤ 90

/-- Code point of an ASCII lower-case letter `a`-`z`. -/
def isLowerChar (n : Nat) : Bool := 97 ≤ n && n ≤ 122

/-- Code point of an ASCII digit `0`-`9`. -/
def isDigitChar (n : Nat) : Bool := 48 ≤ n && n ≤ 57

/-- Code point of an ASCII letter (model of `str.isalpha` on one character). -/
def isAlphaChar (n : Nat) : Bool := isUpperChar n || isLowerChar n

/-- Code point of an ASCII letter or digit (model of `str.isalnum` on one
character). -/
def isAlnumChar (n : Nat) : Bool := isAlphaChar n || isDigitChar n

/-- Python `\s` on ASCII: space, tab, newline, carriage return, vertical tab,
form feed. -/
def isSpaceChar (n : Nat) : Bool :=
  n == 32 || n == 9 || n == 10 || n == 13 || n == 11 || n == 12

/-- Model of `str.lower` on one code point (ASCII). -/
def lowerChar (n : Nat) : Nat := if isUpperChar n then n + 32 else n

/-- Model of `str.upper` on one code point (ASCII). -/
def upperChar (n : Nat) : Nat := if isLowerChar n then n - 32 else n

/-- Model of `str.lower`. -/
def lowerStr (s : List Nat) : List Nat := s.map lowerChar

/-- Model of `str.upper`. -/
def upperStr (s : List Nat) : List Nat := s.map upperChar

/-- The character class `[A-Za-z0-9']` of `_TOKEN_RE`
(`converter.py`, line 7). -/
def isWordChar (n : Nat) : Bool :=
  isUpperChar n || isLowerChar n || isDigitChar n || n == 39

/-- The scanner behind `_TOKEN_RE.findall`: `acc` holds the word-class run
currently being read (in reverse).  A maximal run of `[A-Za-z0-9']` becomes
one token; any other character becomes a single-character token. -/
def tokenizeGo (acc : List Nat) : List Nat → List (List Nat)
  | [] => if acc = [] then [] else [acc.reverse]
  | c :: cs =>
    if isWordChar c then tokenizeGo (c :: acc) cs
    else (if acc = [] then [] else [acc.reverse]) ++ [c] :: tokenizeGo [] cs

/-- `_TOKEN_RE.findall(text)` for `_TOKEN_RE = [A-Za-z0-9']+|[^A-Za-z0-9']`
(`converter.py`, lines 7 and 108): scan left to right, preferring a maximal
run of word-class characters and otherwise emitting a single character. -/
def tokenizeText (s : List Nat) : List (List Nat) := tokenizeGo [] s

theorem tokenizeGo_flatten (s acc : List Nat) :
    (tokenizeGo acc s).flatten = acc.reverse ++ s := by
  induction s generalizing acc with
  | nil =>
    rcases acc with _ | ⟨a, as⟩
    · rfl
    · simp [tokenizeGo]
  | cons c cs ih =>
    by_cases h : isWordChar c
    · simp only [tokenizeGo, if_pos h, ih]
      simp
    · simp only [tokenizeGo, if_neg h]
      rcases acc with _ | ⟨a, as⟩
      · simp [ih]
      · simp [ih]

/-- C1: the tokenizer is lossless — concatenating all tokens, in order,
reconstructs the input exactly. -/
theorem tokenize_lossless (s : List Nat) : (tokenizeText s).flatten = s := by
  simpa using tokenizeGo_flatten s []

/-- A character kept by `normalize_text`'s first substitution: the complement
of the class `[^a-z0-9'\s]` (`converter.py`, line 55). -/
def isNormKeep (n : Nat) : Bool :=
  isLowerChar n || isDigitChar n || n == 39 || isSpaceChar n

/-- The scanner behind `re.sub(r"[^a-z0-9'\s]+", " ", s)` (`converter.py`,
line 55): each maximal run of characters outside `[a-z0-9'\s]` is replaced by
a single space.  `inBad` records whether the previous character belonged to
such a run (whose space has then already been emitted). -/
def subBadGo (inBad : Bool) : List Nat → List Nat
  | [] => []
  | c :: cs =>
    if isNormKeep c then c :: subBadGo false cs
    else if inBad then subBadGo true cs else 32 :: subBadGo true cs

/-- `re.sub(r"[^a-z0-9'\s]+", " ", s)` (`converter.py`, line 55). -/
def subBadRuns (s : List Nat) : List Nat := subBadGo false s

/-- The scanner behind `re.sub(r"\s+", " ", s)` (`converter.py`, line 56):
each maximal run of whitespace is replaced by a single space. -/
def collapseGo (inWs : Bool) : List Nat → List Nat
  | [] => []
  | c :: cs =>
    if isSpaceChar c then
      if inWs then collapseGo true cs else 32 :: collapseGo true cs
    else c :: collapseGo false cs

/-- `re.sub(r"\s+", " ", s)` (`converter.py`, line 56). -/
def collapseSpaces (s : List Nat) : List Nat := collapseGo false s

/-- Model of `str.strip()`: remove leading and trailing whitespace. -/
def pyStrip (s : List Nat) : List Nat :=
  ((s.dropWhile isSpaceChar).reverse.dropWhile isSpaceChar).reverse

/-- `normalize_text` (`converter.py`, lines 46-58): lowercase, replace runs of
characters outside `[a-z0-9'\s]` by a space, collapse whitespace runs to a
single space, and strip. -/
def normalize_text (s : List Nat) : List Nat :=
  pyStrip (collapseSpaces (subBadRuns (lowerStr s)))

/-- A character allowed in the output of `normalize_text`: the class
`[a-z0-9' ]` of the spec's guarantee. -/
def isNormOut (n : Nat) : Bool :=
  isLowerChar n || isDigitChar n || n == 39 || n == 32

theorem subBadGo_all (s : List Nat) :
    ∀ b, (subBadGo b s).all isNormKeep = true := by
  induction s with
  | nil => intro b; rfl
  | cons c cs ih =>
    intro b
    rw [subBadGo]
    by_cases h : isNormKeep c = true
    · rw [if_pos h, List.all_cons, h, ih false]; rfl
    · rw [if_neg h]
      cases b
      · rw [if_neg (by simp), List.all_cons, ih true]; decide
      · rw [if_pos rfl]; exact ih true

theorem keep_not_space_isNormOut {c : Nat} (h : isNormKeep c = true)
    (hs : isSpaceChar c = false) : isNormOut c = true := by
  simp only [isNormKeep, Bool.or_eq_true] at h
  rcases h with h | h
  · simp only [isNormOut, Bool.or_eq_true]
    tauto
  · rw [h] at hs; cases hs

theorem space_ne_32_false {c : Nat} (hs : isSpaceChar c = false) : c ≠ 32 := by
  intro h
  subst h
  cases hs

theorem collapseGo_all (s : List Nat) :
    ∀ b, s.all isNormKeep = true → (collapseGo b s).all isNormOut = true := by
  induction s with
  | nil => intro b _; rfl
  | cons c cs ih =>
    intro b h
    simp only [List.all_cons, Bool.and_eq_true] at h
    by_cases hs : isSpaceChar c = true
    · rcases b with _ | _ <;>
        simp [collapseGo, hs, ih _ h.2, isNormOut]
    · simp only [collapseGo, if_neg hs, List.all_cons, Bool.and_eq_true]
      exact ⟨keep_not_space_isNormOut h.1 (by simpa using hs), ih _ h.2⟩

theorem collapseGo_true_head (s : List Nat) :
    ∀ a, (collapseGo true s).head? = some a → isSpaceChar a = false := by
  induction s with
  | nil => intro a h; cases h
  | cons c cs ih =>
    intro a h
    by_cases hs : isSpaceChar c = true
    · rw [collapseGo, if_pos hs, if_pos rfl] at h
      exact ih a h
    · rw [collapseGo, if_neg hs] at h
      cases h
      simpa using hs

theorem collapseGo_chain (s : List Nat) :
    ∀ b, List.Chain' (fun a b => ¬(a = 32 ∧ b = 32)) (collapseGo b s) := by
  induction s with
  | nil => intro b; rw [collapseGo]; exact List.chain'_nil
  | cons c cs ih =>
    intro b
    by_cases hs : isSpaceChar c = true
    · rcases b with _ | _
      · rw [collapseGo, if_pos hs, if_neg (by simp)]
        rw [List.chain'_cons']
        refine ⟨?_, ih true⟩
        intro y hy h32
        have := collapseGo_true_head cs y hy
        exact space_ne_32_false this h32.2
      · rw [collapseGo, if_pos hs, if_pos rfl]
        exact ih true
    · rw [collapseGo, if_neg hs]
      rw [List.chain'_cons']
      refine ⟨?_, ih false⟩
      intro y _ h32
      exact space_ne_32_false (by simpa using hs) h32.1

theorem pyStrip_subset (l : List Nat) : pyStrip l ⊆ l := by
  intro a ha
  simp only [pyStrip, List.mem_reverse] at ha
  have h1 := List.dropWhile_subset (l := (l.dropWhile isSpaceChar).reverse) isSpaceChar ha
  rw [List.mem_reverse] at h1
  exact List.dropWhile_subset isSpaceChar h1

theorem dropWhile_getLast?_of_ne_nil {p : Nat → Bool} {l : List Nat}
    (h : l.dropWhile p ≠ []) : (l.dropWhile p).getLast? = l.getLast? := by
  obtain ⟨t, ht⟩ := List.dropWhile_suffix (l := l) p
  conv_rhs => rw [← ht]
  rw [List.getLast?_append]
  rcases hx : (l.dropWhile p).getLast? with _ | x
  · exact absurd (List.getLast?_eq_none_iff.mp hx) h
  · rfl

theorem pyStrip_head (l : List Nat) :
    ∀ a, (pyStrip l).head? = some a → isSpaceChar a = false := by
  intro a ha
  rw [pyStrip, List.head?_reverse] at ha
  by_cases hnil : (l.dropWhile isSpaceChar).reverse.dropWhile isSpaceChar = []
  · rw [hnil] at ha; cases ha
  · rw [dropWhile_getLast?_of_ne_nil hnil, List.getLast?_reverse] at ha
    have := List.head?_dropWhile_not isSpaceChar l
    rw [ha] at this
    exact this

theorem pyStrip_getLast (l : List Nat) :
    ∀ a, (pyStrip l).getLast? = some a → isSpaceChar a = false := by
  intro a ha
  rw [pyStrip, List.getLast?_reverse] at ha
  have := List.head?_dropWhile_not isSpaceChar (l.dropWhile isSpaceChar).reverse
  rw [ha] at this
  exact this

theorem pyStrip_chain {R : Nat → Nat → Prop} (hsymm : ∀ a b, R a b → R b a)
    {l : List Nat} (h : List.Chain' R l) : List.Chain' R (pyStrip l) := by
  have h1 : List.Chain' R (l.dropWhile isSpaceChar) :=
    h.suffix (List.dropWhile_suffix isSpaceChar)
  have h2 : List.Chain' R (l.dropWhile isSpaceChar).reverse := by
    rw [List.chain'_reverse]
    exact h1.imp (fun a b hab => hsymm a b hab)
  have h3 : List.Chain' R ((l.dropWhile isSpaceChar).reverse.dropWhile isSpaceChar) :=
    h2.suffix (List.dropWhile_suffix isSpaceChar)
  rw [pyStrip, List.chain'_reverse]
  exact h3.imp (fun a b hab => hsymm a b hab)

theorem lowerStr_of_all_space {s : List Nat} (h : s.all isSpaceChar = true) :
    lowerStr s = s := by
  induction s with
  | nil => rfl
  | cons c cs ih =>
    simp only [List.all_cons, Bool.and_eq_true] at h
    have hc : lowerChar c = c := by
      have := h.1
      simp only [isSpaceChar, Bool.or_eq_true, beq_iff_eq] at this
      simp only [lowerChar, isUpperChar, Bool.and_eq_true, decide_eq_true_eq]
      rw [if_neg]
      omega
    simp only [lowerStr, List.map_cons]
    rw [hc]
    have := ih h.2
    simp only [lowerStr] at this
    rw [this]

theorem subBadGo_of_all_keep {s : List Nat} (h : s.all isNormKeep = true) :
    ∀ b, subBadGo b s = s := by
  induction s with
  | nil => intro b; rfl
  | cons c cs ih =>
    intro b
    simp only [List.all_cons, Bool.and_eq_true] at h
    rw [subBadGo, if_pos h.1, ih h.2]

theorem collapseGo_true_of_all_space {s : List Nat} (h : s.all isSpaceChar = true) :
    collapseGo true s = [] := by
  induction s with
  | nil => rfl
  | cons c cs ih =>
    simp only [List.all_cons, Bool.and_eq_true] at h
    rw [collapseGo, if_pos h.1, if_pos rfl]
    exact ih h.2

theorem space_isNormKeep {c : Nat} (h : isSpaceChar c = true) :
    isNormKeep c = true := by
  simp only [isNormKeep, Bool.or_eq_true]
  exact Or.inr h

/-- C6: `normalize_text` is total, its output uses only `[a-z0-9' ]`, has no
two consecutive spaces, no leading or trailing space, is empty on
empty/whitespace-only input, and `normalize_text "Hello, World!!"` is
`"hello world"`. -/
theorem normalize_guarantees :
    (∀ s : List Nat,
        (normalize_text s).all isNormOut = true ∧
        List.Chain' (fun a b => ¬(a = 32 ∧ b = 32)) (normalize_text s) ∧
        (∀ a, (normalize_text s).head? = some a → a ≠ 32) ∧
        (∀ a, (normalize_text s).getLast? = some a → a ≠ 32) ∧
        (s.all isSpaceChar = true → normalize_text s = [])) ∧
    normalize_text (str "Hello, World!!") = str "hello world" := by
  constructor
  · intro s
    refine ⟨?_, ?_, ?_, ?_, ?_⟩
    · have h1 := subBadGo_all (lowerStr s) false
      have h2 := collapseGo_all (subBadGo false (lowerStr s)) false h1
      rw [List.all_eq_true] at h2 ⊢
      intro a ha
      exact h2 a (pyStrip_subset _ ha)
    · exact pyStrip_chain (fun a b hab h => hab ⟨h.2, h.1⟩) (collapseGo_chain _ false)
    · intro a ha
      exact space_ne_32_false (pyStrip_head _ a ha)
    · intro a ha
      exact space_ne_32_false (pyStrip_getLast _ a ha)
    · intro hws
      rw [normalize_text, lowerStr_of_all_space hws,
        subBadRuns, subBadGo_of_all_keep (by
          rw [List.all_eq_true] at hws ⊢
          exact fun a ha => space_isNormKeep (hws a ha))]
      rcases s with _ | ⟨c, cs⟩
      · rfl
      · simp only [List.all_cons, Bool.and_eq_true] at hws
        rw [collapseSpaces, collapseGo, if_pos hws.1, if_neg (by simp),
          collapseGo_true_of_all_space hws.2]
        rfl
  · decide

/-- `DEFAULT_DICTIONARY` (`converter.py`, lines 9-20), as an insertion-ordered
association list (the model of a Python `dict`). -/
def DEFAULT_DICTIONARY : List (List Nat × List Nat) :=
  [(str "hello", str "valori"), (str "world", str "zenith"),
   (str "language", str "oratil"), (str "voice", str "sonari"),
   (str "story", str "mythra"), (str "friend", str "kaleth"),
   (str "journey", str "sereth"), (str "star", str "lyr"),
   (str "light", str "phora"), (str "shadow", str "umbra")]

/-- `_SYLLABLES` (`converter.py`, lines 22-35). -/
def SYLLABLES : List (List Nat) :=
  [str "li", str "ra", str "ba", str "no", str "ka", str "se", str "tu",
   str "ven", str "zor", str "mi", str "pha", str "el"]

/-- `VOWEL_SUFFIXES` (`converter.py`, lines 37-43): `d[c]` for the five
lowercase vowels, `none` otherwise (`c in VOWEL_SUFFIXES` is `isSome`). -/
def vowelSuffix (n : Nat) : Option (List Nat) :=
  if n = 97 then some (str "ra")
  else if n = 101 then some (str "ri")
  else if n = 105 then some (str "la")
  else if n = 111 then some (str "no")
  else if n = 117 then some (str "ma")
  else none

/-- Setting one key of a Python `dict`: replace the value in place if the key
is present, else append the new binding. -/
def pySet (d : List (List Nat × List Nat)) (k v : List Nat) :
    List (List Nat × List Nat) :=
  if d.any (fun e => e.1 = k) then
    d.map (fun e => if e.1 = k then (e.1, v) else e)
  else d ++ [(k, v)]

/-- Python `dict.update` / `dict(pairs)`: insert the pairs left to right,
later occurrences of a key overwriting earlier ones. -/
def pyDictUpdate (base upd : List (List Nat × List Nat)) :
    List (List Nat × List Nat) :=
  upd.foldl (fun acc e => pySet acc e.1 e.2) base

/-- Python `dict.get`: the value of the (unique) binding of `k`, i.e. the
first binding in the association-list model. -/
def dictGet : List (List Nat × List Nat) → List Nat → Option (List Nat)
  | [], _ => none
  | e :: d, k => if e.1 = k then some e.2 else dictGet d k

/-- The effective mapping of `english_to_libran` (`converter.py`, lines
104-106): a copy of `DEFAULT_DICTIONARY` updated with the caller-supplied
pairs under lowercased keys (`{k.lower(): v for k, v in dictionary.items()}`,
itself a dict, so later duplicate lowercased keys win). -/
def effectiveMapping (dictionary : List (List Nat × List Nat)) :
    List (List Nat × List Nat) :=
  pyDictUpdate DEFAULT_DICTIONARY
    (pyDictUpdate [] (dictionary.map (fun e => (lowerStr e.1, e.2))))

/-- Python `str.isupper`: at least one cased character and no lower-case
cased character (ASCII: cased characters are the letters). -/
def pyIsUpper (s : List Nat) : Bool :=
  s.any isAlphaChar && s.all (fun c => !isAlphaChar c || isUpperChar c)

/-- Python `str.capitalize`: first character upper-cased, the rest
lower-cased. -/
def pyCapitalize : List Nat → List Nat
  | [] => []
  | c :: cs => upperChar c :: lowerStr cs

/-- `_apply_casing` (`converter.py`, lines 89-98): empty source leaves the
candidate unchanged; an all-upper source uppercases it; a source with an
upper-case first character capitalizes it; otherwise it is unchanged. -/
def _apply_casing : List Nat → List Nat → List Nat
  | [], translated => translated
  | c :: cs, translated =>
    if pyIsUpper (c :: cs) then upperStr translated
    else if isUpperChar c then pyCapitalize translated
    else translated

/-- The loop body of `_procedural_word` (`converter.py`, lines 70-73): piece
`i` is `syllables[(ord(word[i]) + i) % len(syllables)]`. -/
def proceduralPieces (word : List Nat) (syllables : List (List Nat)) :
    List (List Nat) :=
  word.enum.map (fun p => syllables.getD ((p.2 + p.1) % syllables.length) [])

/-- `_procedural_word` (`converter.py`, lines 61-86).  The empty word returns
`""` before the syllable table is inspected; an empty syllable table then
raises `ValueError("syllables must not be empty")`; otherwise the enumerated
pieces are joined, with the vowel suffix of the last character appended when
there is one. -/
def _procedural_word (word : List Nat) (syllables : List (List Nat)) :
    Except (List Nat) (List Nat) :=
  if word = [] then .ok []
  else if syllables = [] then .error (str "syllables must not be empty")
  else
    .ok ((match vowelSuffix (word.getLastD 0) with
      | some suf => proceduralPieces word syllables ++ [suf]
      | none => proceduralPieces word syllables).flatten)

/-- The word-likeness test of the translation loop (`converter.py`,
line 111): `token.isalpha() or token.replace("'", "").isalnum()`. -/
def isWordLike (tok : List Nat) : Bool :=
  (!tok.isEmpty && tok.all isAlphaChar) ||
    (let r := tok.filter (fun c => !(c == 39)); !r.isEmpty && r.all isAlnumChar)

/-- Python truthiness of `Optional[str]`: `None` and `""` are falsy. -/
def truthy : Option (List Nat) → Option (List Nat)
  | some (c :: cs) => some (c :: cs)
  | _ => none

/-- The per-token body of the translation loop (`converter.py`, lines
111-121): word-like tokens are looked up by lowercased form, then by
normalized form, then fall back to the procedural word (always defined, as
`_SYLLABLES` is non-empty); non-word tokens pass through unchanged. -/
def translateToken (mapping : List (List Nat × List Nat)) (tok : List Nat) :
    List Nat :=
  if isWordLike tok then
    _apply_casing tok
      (match truthy (dictGet mapping (lowerStr tok)) with
       | some v => v
       | none =>
         match truthy (dictGet mapping (normalize_text tok)) with
         | some v => v
         | none => (_procedural_word (normalize_text tok) SYLLABLES).toOption.getD [])
  else tok

/-- `english_to_libran` (`converter.py`, lines 101-122). -/
def english_to_libran (text : List Nat)
    (dictionary : List (List Nat × List Nat)) : List Nat :=
  ((tokenizeText text).map (translateToken (effectiveMapping dictionary))).flatten

/-- Last-wins lookup in a list of key-value pairs: the value of the last
binding of `k`, the semantics of building a Python dict from pairs. -/
def lastLookup : List (List Nat × List Nat) → List Nat → Option (List Nat)
  | [], _ => none
  | e :: rest, k => (lastLookup rest k).or (if e.1 = k then some e.2 else none)

theorem dictGet_map_replace (d : List (List Nat × List Nat)) (k v k' : List Nat) :
    dictGet (d.map (fun e => if e.1 = k then (e.1, v) else e)) k' =
      if k' = k then (dictGet d k).map (fun _ => v) else dictGet d k' := by
  induction d with
  | nil => by_cases hk : k' = k <;> simp [dictGet, hk]
  | cons e d ih =>
    rw [List.map_cons]
    by_cases he : e.1 = k <;> by_cases hk : k' = k <;> by_cases hq : e.1 = k' <;>
      simp_all [dictGet]

theorem dictGet_append_single (d : List (List Nat × List Nat)) (k v k' : List Nat) :
    dictGet (d ++ [(k, v)]) k' =
      (dictGet d k').or (if k' = k then some v else none) := by
  induction d with
  | nil =>
    by_cases hk : k' = k
    · simp_all [dictGet, Option.or]
    · simp_all [dictGet, Option.or, Ne.symm hk]
  | cons e d ih =>
    by_cases hq : e.1 = k' <;> simp_all [dictGet, Option.or]

theorem any_key_iff (d : List (List Nat × List Nat)) (k : List Nat) :
    d.any (fun e => e.1 = k) = true ↔ (dictGet d k).isSome = true := by
  induction d with
  | nil => simp [dictGet]
  | cons e d ih =>
    by_cases he : e.1 = k <;> simp_all [dictGet]

theorem lastLookup_isSome_iff (d : List (List Nat × List Nat)) (k : List Nat) :
    (lastLookup d k).isSome = true ↔ (dictGet d k).isSome = true := by
  induction d with
  | nil => simp [dictGet, lastLookup]
  | cons e d ih =>
    by_cases he : e.1 = k <;>
      rcases h : lastLookup d k with _ | w <;>
      simp_all [dictGet, lastLookup, Option.or]

theorem dictGet_pySet (d : List (List Nat × List Nat)) (k v k' : List Nat) :
    dictGet (pySet d k v) k' = if k' = k then some v else dictGet d k' := by
  rw [pySet]
  by_cases hmem : d.any (fun e => e.1 = k) = true
  · rw [if_pos hmem, dictGet_map_replace]
    by_cases hk : k' = k
    · rw [if_pos hk, if_pos hk]
      rcases hsome : dictGet d k with _ | w
      · rw [any_key_iff, hsome] at hmem; cases hmem
      · rfl
    · rw [if_neg hk, if_neg hk]
  · rw [if_neg hmem, dictGet_append_single]
    have hnone : dictGet d k = none := by
      rw [any_key_iff] at hmem
      rcases hget : dictGet d k with _ | u
      · rfl
      · rw [hget] at hmem; simp at hmem
    by_cases hk : k' = k
    · subst hk
      simp [hnone, Option.or]
    · simp [hk, Option.or_none]

theorem dictGet_pyDictUpdate (upd : List (List Nat × List Nat)) :
    ∀ base k, dictGet (pyDictUpdate base upd) k =
      (lastLookup upd k).or (dictGet base k) := by
  induction upd with
  | nil => intro base k; simp [pyDictUpdate, lastLookup, Option.or]
  | cons e rest ih =>
    intro base k
    have hstep : pyDictUpdate base (e :: rest) =
        pyDictUpdate (pySet base e.1 e.2) rest := rfl
    rw [hstep, ih, lastLookup, dictGet_pySet]
    rcases lastLookup rest k with _ | w
    · by_cases hk : e.1 = k
      · subst hk
        simp [Option.or]
      · simp [Option.or, hk]
        intro h
        exact absurd h.symm hk
    · rfl

theorem lastLookup_map_replace (d : List (List Nat × List Nat)) (k v k' : List Nat) :
    lastLookup (d.map (fun e => if e.1 = k then (e.1, v) else e)) k' =
      if k' = k then (lastLookup d k).map (fun _ => v) else lastLookup d k' := by
  induction d with
  | nil => by_cases hk : k' = k <;> simp [lastLookup, hk]
  | cons e d ih =>
    rw [List.map_cons]
    by_cases he : e.1 = k <;> by_cases hk : k' = k <;> by_cases hq : e.1 = k' <;>
      rcases h : lastLookup d k with _ | w <;>
      simp_all [lastLookup, Option.or]

theorem lastLookup_append_single (d : List (List Nat × List Nat)) (k v k' : List Nat) :
    lastLookup (d ++ [(k, v)]) k' =
      ((if k' = k then some v else none).or (lastLookup d k')) := by
  induction d with
  | nil =>
    by_cases hk : k' = k
    · simp_all [lastLookup, Option.or]
    · simp_all [lastLookup, Option.or, Ne.symm hk]
  | cons e d ih =>
    by_cases hq : e.1 = k' <;> by_cases hk : k' = k <;>
      rcases h : lastLookup d k' with _ | w <;>
      simp_all [lastLookup, Option.or]

theorem lastLookup_pySet (d : List (List Nat × List Nat)) (k v k' : List Nat) :
    lastLookup (pySet d k v) k' = if k' = k then some v else lastLookup d k' := by
  rw [pySet]
  by_cases hmem : d.any (fun e => e.1 = k) = true
  · rw [if_pos hmem, lastLookup_map_replace]
    by_cases hk : k' = k
    · rw [if_pos hk, if_pos hk]
      rcases hsome : lastLookup d k with _ | w
      · exfalso
        rw [any_key_iff, ← lastLookup_isSome_iff, hsome] at hmem
        cases hmem
      · rfl
    · rw [if_neg hk, if_neg hk]
  · rw [if_neg hmem, lastLookup_append_single]
    have hnone : lastLookup d k = none := by
      rw [any_key_iff, ← lastLookup_isSome_iff] at hmem
      rcases hget : lastLookup d k with _ | u
      · rfl
      · rw [hget] at hmem; simp at hmem
    by_cases hk : k' = k
    · subst hk
      simp [Option.or]
    · simp [hk, Option.or]

theorem lastLookup_pyDictUpdate (upd : List (List Nat × List Nat)) :
    ∀ base k, lastLookup (pyDictUpdate base upd) k =
      (lastLookup upd k).or (lastLookup base k) := by
  induction upd with
  | nil => intro base k; simp [pyDictUpdate, lastLookup, Option.or]
  | cons e rest ih =>
    intro base k
    have hstep : pyDictUpdate base (e :: rest) =
        pyDictUpdate (pySet base e.1 e.2) rest := rfl
    rw [hstep, ih, lastLookup, lastLookup_pySet]
    rcases lastLookup rest k with _ | w
    · by_cases hk : e.1 = k
      · subst hk
        simp [Option.or]
      · simp [Option.or, hk]
        intro h
        exact absurd h.symm hk
    · rfl

/-- C7: the effective dictionary is the default dictionary overlaid by the
caller-supplied mapping with lowercased keys — caller entries (last
occurrence winning) take precedence, defaults answer all other keys — and
the two dictionary-precedence examples hold: `translate("Friend")` is
`"Kaleth"` by default and `"Allya"` under the override
`{"friend": "allya"}`. -/
theorem dictionary_precedence :
    (∀ (dictionary : List (List Nat × List Nat)) (k : List Nat),
      dictGet (effectiveMapping dictionary) k =
        (lastLookup (dictionary.map (fun e => (lowerStr e.1, e.2))) k).or
          (dictGet DEFAULT_DICTIONARY k)) ∧
    english_to_libran (str "Friend") [] = str "Kaleth" ∧
    english_to_libran (str "Friend") [(str "friend", str "allya")] = str "Allya" := by
  refine ⟨?_, by decide, by decide⟩
  intro dictionary k
  rw [effectiveMapping, dictGet_pyDictUpdate, lastLookup_pyDictUpdate]
  have h0 : lastLookup ([] : List (List Nat × List Nat)) k = none := rfl
  rw [h0, Option.or_none]

/-- C2 counterexample: for the mixed-case source token `"McDonald"` the code
capitalizes the candidate (`"kaleth"` becomes `"Kaleth"`), it does not return
it unchanged as the claim's final case asserts. -/
theorem casing_mixed_case_counterexample :
    _apply_casing (str "McDonald") (str "kaleth") = str "Kaleth" ∧
    str "Kaleth" ≠ str "kaleth" := by
  constructor
  · decide
  · decide

/-- The casing rule in the spec's own vocabulary (amended): empty source
returns the candidate unchanged; a source with at least one letter, all of
whose letters are upper case, uppercases the whole candidate; otherwise a
source whose first character is an upper-case letter (regardless of the case
of the remaining characters) capitalizes the candidate — first character
uppercased, the rest lowercased; in every other case the candidate is
returned unchanged. -/
def casingSpecRule (source candidate : List Nat) : List Nat :=
  if source = [] then candidate
  else if (∃ c ∈ source, isAlphaChar c = true) ∧
      (∀ c ∈ source, isAlphaChar c = true → isUpperChar c = true) then
    upperStr candidate
  else if isUpperChar (source.headD 0) = true then
    match candidate with
    | [] => []
    | c :: cs => upperChar c :: lowerStr cs
  else candidate

theorem pyIsUpper_iff (s : List Nat) :
    pyIsUpper s = true ↔
      (∃ c ∈ s, isAlphaChar c = true) ∧
        (∀ c ∈ s, isAlphaChar c = true → isUpperChar c = true) := by
  rw [pyIsUpper, Bool.and_eq_true, List.any_eq_true, List.all_eq_true]
  constructor
  · rintro ⟨⟨c, hc, hca⟩, hall⟩
    refine ⟨⟨c, hc, hca⟩, ?_⟩
    intro d hd hda
    have := hall d hd
    rw [Bool.or_eq_true, Bool.not_eq_true'] at this
    rcases this with h | h
    · rw [hda] at h; cases h
    · exact h
  · rintro ⟨⟨c, hc, hca⟩, hall⟩
    refine ⟨⟨c, hc, hca⟩, ?_⟩
    intro d hd
    rw [Bool.or_eq_true, Bool.not_eq_true']
    by_cases hda : isAlphaChar d = true
    · exact Or.inr (hall d hd hda)
    · exact Or.inl (by simpa using hda)

/-- C2 (amended): `_apply_casing` realizes exactly the amended ordered rule:
empty source → unchanged; all letters upper (and at least one letter) →
uppercase; upper-case first character → capitalize (even for mixed-case
sources such as `"McDonald"`); otherwise unchanged. -/
theorem apply_casing_matches_spec_rule (source candidate : List Nat) :
    _apply_casing source candidate = casingSpecRule source candidate := by
  rcases source with _ | ⟨c, cs⟩
  · rfl
  · rw [casingSpecRule.eq_def, if_neg (by simp)]
    rw [_apply_casing]
    by_cases hu : pyIsUpper (c :: cs) = true
    · rw [if_pos hu, if_pos ((pyIsUpper_iff (c :: cs)).mp hu)]
    · rw [if_neg hu, if_neg (fun h => hu ((pyIsUpper_iff (c :: cs)).mpr h))]
      by_cases hc : isUpperChar c = true
      · rw [if_pos hc, if_pos (by simpa using hc)]
        rcases candidate with _ | ⟨t, ts⟩ <;> rfl
      · rw [if_neg hc, if_neg (by simpa using hc)]

/-- C3 counterexample: with an empty syllable table and the empty input word,
`_procedural_word` returns `""` successfully — the empty-word early return
precedes the (claimed universal) empty-table error. -/
theorem procedural_empty_word_empty_table_counterexample :
    _procedural_word [] [] = Except.ok [] ∧
    (_procedural_word [] []).isOk = true := by
  constructor
  · rfl
  · rfl

/-- C3 (amended): for every non-empty word the empty syllable table fails
with `ValueError("syllables must not be empty")`, and for every syllable
table (empty or not) the empty word yields the empty output without error. -/
theorem procedural_word_empty_cases (word : List Nat)
    (syllables : List (List Nat)) :
    (word ≠ [] → _procedural_word word [] =
      Except.error (str "syllables must not be empty")) ∧
    _procedural_word [] syllables = Except.ok [] := by
  constructor
  · intro hw
    rw [_procedural_word, if_neg hw, if_pos rfl]
  · rw [_procedural_word, if_pos rfl]

theorem procedural_word_empty_cases_witness :
    str "a" ≠ [] ∧
    _procedural_word (str "a") [] =
      Except.error (str "syllables must not be empty") ∧
    _procedural_word [] SYLLABLES = Except.ok [] :=
  ⟨by decide, (procedural_word_empty_cases (str "a") SYLLABLES).1 (by decide),
    (procedural_word_empty_cases (str "a") SYLLABLES).2⟩

theorem vowelSuffix_isSome_iff (n : Nat) :
    (vowelSuffix n).isSome = true ↔ n ∈ [97, 101, 105, 111, 117] := by
  unfold vowelSuffix
  split_ifs <;> simp_all

theorem proceduralPieces_eq_range_map (word : List Nat)
    (syllables : List (List Nat)) :
    proceduralPieces word syllables =
      (List.range word.length).map
        (fun i => syllables.getD ((word.getD i 0 + i) % syllables.length) []) := by
  apply List.ext_getElem
  · simp [proceduralPieces]
  · intro i h1 h2
    have hi : i < word.length := by simpa [proceduralPieces] using h1
    simp only [proceduralPieces, List.getElem_map, List.getElem_range, List.enum,
      List.getElem_enumFrom, Nat.zero_add]
    rw [List.getD_eq_getElem word 0 hi]

/-- C5: for a non-empty normalized word and non-empty syllable table, the
procedural generator returns the concatenation over positions `i` of
`syllable_table[(code_point(word[i]) + i) mod len(syllable_table)]`, followed
by the fixed vowel suffix of the last character exactly when that character
is one of the five vowels `a`, `e`, `i`, `o`, `u`. -/
theorem procedural_word_formula (word : List Nat) (syllables : List (List Nat))
    (hw : word ≠ []) (hs : syllables ≠ []) :
    _procedural_word word syllables =
      Except.ok
        (((List.range word.length).map
            (fun i => syllables.getD ((word.getD i 0 + i) % syllables.length) [])).flatten
          ++ (if word.getLastD 0 ∈ [97, 101, 105, 111, 117]
              then (vowelSuffix (word.getLastD 0)).getD [] else [])) := by
  rw [_procedural_word, if_neg hw, if_neg hs]
  congr 1
  rw [← proceduralPieces_eq_range_map]
  rcases hv : vowelSuffix (word.getLastD 0) with _ | suf
  · rw [if_neg (fun hmem => by
      rw [← vowelSuffix_isSome_iff] at hmem
      rw [hv] at hmem
      cases hmem)]
    simp
  · rw [if_pos (by rw [← vowelSuffix_isSome_iff, hv]; rfl)]
    simp

theorem procedural_word_formula_witness :
    str "e" ≠ [] ∧ SYLLABLES ≠ [] ∧
    _procedural_word (str "e") SYLLABLES =
      Except.ok
        (((List.range (str "e").length).map
            (fun i => SYLLABLES.getD (((str "e").getD i 0 + i) % SYLLABLES.length) [])).flatten
          ++ (if (str "e").getLastD 0 ∈ [97, 101, 105, 111, 117]
              then (vowelSuffix ((str "e").getLastD 0)).getD [] else [])) :=
  ⟨by decide, by decide, procedural_word_formula (str "e") SYLLABLES (by decide) (by decide)⟩

/-- C10: a dictionary value that is the empty string is falsy in the lookup
chain, so a word-like token whose lowercase and normalized lookups both map
to `""` in the effective dictionary is translated by the procedural word
generator (with the source token's casing applied), not by the empty
translation. -/
theorem empty_dict_value_falls_through
    (dictionary : List (List Nat × List Nat)) (tok : List Nat)
    (hw : isWordLike tok = true)
    (h1 : dictGet (effectiveMapping dictionary) (lowerStr tok) = some [])
    (h2 : dictGet (effectiveMapping dictionary) (normalize_text tok) = some []) :
    translateToken (effectiveMapping dictionary) tok =
      _apply_casing tok
        ((_procedural_word (normalize_text tok) SYLLABLES).toOption.getD []) := by
  rw [translateToken, if_pos hw, h1, h2]
  rfl

theorem empty_dict_value_falls_through_witness :
    isWordLike (str "friend") = true ∧
    dictGet (effectiveMapping [(str "friend", str "")]) (lowerStr (str "friend")) = some [] ∧
    dictGet (effectiveMapping [(str "friend", str "")]) (normalize_text (str "friend")) = some [] ∧
    translateToken (effectiveMapping [(str "friend", str "")]) (str "friend") =
      _apply_casing (str "friend")
        ((_procedural_word (normalize_text (str "friend")) SYLLABLES).toOption.getD []) :=
  ⟨by decide, by decide, by decide,
    empty_dict_value_falls_through [(str "friend", str "")] (str "friend")
      (by decide) (by decide) (by decide)⟩

theorem lowerChar_lowerChar (n : Nat) : lowerChar (lowerChar n) = lowerChar n := by
  simp only [lowerChar, isUpperChar, Bool.and_eq_true, decide_eq_true_eq]
  split_ifs <;> omega

theorem isWordChar_lowerChar (n : Nat) : isWordChar (lowerChar n) = isWordChar n := by
  rw [Bool.eq_iff_iff]
  simp only [isWordChar, isUpperChar, isLowerChar, isDigitChar, lowerChar,
    Bool.or_eq_true, Bool.and_eq_true, decide_eq_true_eq, beq_iff_eq]
  split_ifs with h
  · simp only [Bool.and_eq_true, decide_eq_true_eq] at h
    omega
  · exact Iff.rfl

theorem isAlphaChar_lowerChar (n : Nat) : isAlphaChar (lowerChar n) = isAlphaChar n := by
  rw [Bool.eq_iff_iff]
  simp only [isAlphaChar, isUpperChar, isLowerChar, lowerChar,
    Bool.or_eq_true, Bool.and_eq_true, decide_eq_true_eq]
  split_ifs with h
  · simp only [Bool.and_eq_true, decide_eq_true_eq] at h
    omega
  · exact Iff.rfl

theorem isAlnumChar_lowerChar (n : Nat) : isAlnumChar (lowerChar n) = isAlnumChar n := by
  rw [Bool.eq_iff_iff]
  simp only [isAlnumChar, isAlphaChar, isUpperChar, isLowerChar, isDigitChar,
    lowerChar, Bool.or_eq_true, Bool.and_eq_true, decide_eq_true_eq]
  split_ifs with h
  · simp only [Bool.and_eq_true, decide_eq_true_eq] at h
    omega
  · exact Iff.rfl

theorem lowerChar_upperChar (n : Nat) : lowerChar (upperChar n) = lowerChar n := by
  simp only [lowerChar, upperChar, isUpperChar, isLowerChar,
    Bool.and_eq_true, decide_eq_true_eq]
  split_ifs <;> omega

theorem beq39_lowerChar (n : Nat) : (lowerChar n == 39) = (n == 39) := by
  rw [Bool.eq_iff_iff]
  simp only [lowerChar, isUpperChar, Bool.and_eq_true, decide_eq_true_eq,
    beq_iff_eq]
  split_ifs with h <;> omega

theorem lowerStr_lowerStr (s : List Nat) : lowerStr (lowerStr s) = lowerStr s := by
  simp [lowerStr, List.map_map, Function.comp, lowerChar_lowerChar]

theorem lowerStr_nonempty_iff (s : List Nat) : lowerStr s = [] ↔ s = [] := by
  rcases s with _ | ⟨c, cs⟩ <;> simp [lowerStr]

theorem tokenizeGo_lower (s : List Nat) :
    ∀ acc, tokenizeGo (lowerStr acc) (lowerStr s) = (tokenizeGo acc s).map lowerStr := by
  induction s with
  | nil =>
    intro acc
    rcases acc with _ | ⟨a, as⟩
    · rfl
    · simp [tokenizeGo, lowerStr]
  | cons c cs ih =>
    intro acc
    show tokenizeGo (lowerStr acc) (lowerChar c :: lowerStr cs) = _
    rw [tokenizeGo, tokenizeGo, isWordChar_lowerChar]
    by_cases h : isWordChar c = true
    · rw [if_pos h, if_pos h]
      exact ih (c :: acc)
    · rw [if_neg h, if_neg h]
      rcases acc with _ | ⟨a, as⟩
      · simpa [lowerStr] using ih []
      · simp only [List.map_append, List.map_cons]
        have h1 := ih []
        simp only [lowerStr, List.map_nil] at h1 ⊢
        rw [h1]
        simp [lowerStr, List.map_append, List.map_reverse]

theorem tokenizeText_lower (s : List Nat) :
    tokenizeText (lowerStr s) = (tokenizeText s).map lowerStr := by
  simpa [lowerStr] using tokenizeGo_lower s []

theorem normalize_text_lower (s : List Nat) :
    normalize_text (lowerStr s) = normalize_text s := by
  simp only [normalize_text, lowerStr_lowerStr]

theorem isEmpty_lowerStr (s : List Nat) : (lowerStr s).isEmpty = s.isEmpty := by
  rcases s with _ | ⟨c, cs⟩ <;> rfl

theorem isWordLike_lower (tok : List Nat) :
    isWordLike (lowerStr tok) = isWordLike tok := by
  rw [isWordLike, isWordLike]
  have h1 : (lowerStr tok).all isAlphaChar = tok.all isAlphaChar := by
    simp [lowerStr, List.all_map, Function.comp_def, isAlphaChar_lowerChar]
  have h2 : (lowerStr tok).filter (fun c => !(c == 39)) =
      lowerStr (tok.filter (fun c => !(c == 39))) := by
    rw [lowerStr, lowerStr, List.filter_map]
    congr 1
    apply List.filter_congr
    intro c _
    simp [Function.comp, beq39_lowerChar]
  simp only [h1, h2, isEmpty_lowerStr]
  have h3 : (lowerStr (tok.filter (fun c => !(c == 39)))).all isAlnumChar =
      (tok.filter (fun c => !(c == 39))).all isAlnumChar := by
    simp [lowerStr, List.all_map, Function.comp_def, isAlnumChar_lowerChar]
  rw [h3]

theorem applyCasing_lower (source t : List Nat) :
    lowerStr (_apply_casing source t) = lowerStr t := by
  rcases source with _ | ⟨c, cs⟩
  · rfl
  · rw [_apply_casing]
    by_cases hu : pyIsUpper (c :: cs) = true
    · rw [if_pos hu]
      simp [lowerStr, upperStr, List.map_map, Function.comp, lowerChar_upperChar]
    · rw [if_neg hu]
      by_cases hc : isUpperChar c = true
      · rw [if_pos hc]
        rcases t with _ | ⟨t0, ts⟩
        · rfl
        · simp [pyCapitalize, lowerStr, lowerChar_upperChar, List.map_map,
            Function.comp, lowerChar_lowerChar]
      · rw [if_neg hc]

theorem translateToken_lower (m : List (List Nat × List Nat)) (tok : List Nat) :
    lowerStr (translateToken m tok) = lowerStr (translateToken m (lowerStr tok)) := by
  rw [translateToken, translateToken, isWordLike_lower]
  by_cases hw : isWordLike tok = true
  · rw [if_pos hw, if_pos hw, lowerStr_lowerStr, normalize_text_lower,
      applyCasing_lower, applyCasing_lower]
  · rw [if_neg hw, if_neg hw, lowerStr_lowerStr]

/-- C9: translation is deterministic and case-insensitive up to the final
casing restoration: repeated calls agree, inputs equal up to case have
translations equal up to case, and in particular
`translate("mystery").lower() == translate("Mystery").lower()`. -/
theorem translation_deterministic_case_insensitive :
    (∀ (w : List Nat) (dictionary : List (List Nat × List Nat)),
      english_to_libran w dictionary = english_to_libran w dictionary) ∧
    (∀ (s t : List Nat) (dictionary : List (List Nat × List Nat)),
      lowerStr s = lowerStr t →
      lowerStr (english_to_libran s dictionary) =
        lowerStr (english_to_libran t dictionary)) ∧
    lowerStr (english_to_libran (str "mystery") []) =
      lowerStr (english_to_libran (str "Mystery") []) := by
  have key : ∀ (u : List Nat) (m : List (List Nat × List Nat)),
      lowerStr (((tokenizeText u).map (translateToken m)).flatten) =
        ((tokenizeText (lowerStr u)).map
          (fun k => lowerStr (translateToken m k))).flatten := by
    intro u m
    rw [lowerStr, List.map_flatten, List.map_map, tokenizeText_lower, List.map_map]
    congr 1
    apply List.map_congr_left
    intro k _
    show lowerStr (translateToken m k) = lowerStr (translateToken m (lowerStr k))
    exact translateToken_lower m k
  refine ⟨fun w d => rfl, ?_, ?_⟩
  · intro s t dictionary hst
    rw [english_to_libran, english_to_libran, key s, key t, hst]
  · decide

theorem normalize_guarantees_witness :
    ((str "  ").all isSpaceChar = true ∧ normalize_text (str "  ") = []) ∧
    ((normalize_text (str "A b")).head? = some 97 ∧ (97 : Nat) ≠ 32) :=
  ⟨⟨by decide, (normalize_guarantees.1 (str "  ")).2.2.2.2 (by decide)⟩,
   ⟨by decide, (normalize_guarantees.1 (str "A b")).2.2.1 97 (by decide)⟩⟩

theorem translation_case_insensitive_witness :
    lowerStr (str "mystery") = lowerStr (str "Mystery") ∧
    lowerStr (english_to_libran (str "mystery") []) =
      lowerStr (english_to_libran (str "Mystery") []) :=
  ⟨by decide,
    translation_deterministic_case_insensitive.2.1 (str "mystery") (str "Mystery")
      [] (by decide)⟩

/-! ## The synthesizer (`synthesizer.py`) -/

/-- `_char_frequency` (`synthesizer.py`, lines 11-32): the base map for the
nine tabled characters (looked up on the lowercased character), the letter
fallback `300.0 + ((ord(lower) - ord('a')) % 26) * 12.5`, the digit fallback
`250.0 + digit * 20.0`, and `0.0` (silence) otherwise.  The float constants
are modelled as exact rationals. -/
def pyCharFrequency (c : Nat) : ℚ :=
  if lowerChar c = 97 then 440
  else if lowerChar c = 101 then 49388 / 100
  else if lowerChar c = 105 then 52325 / 100
  else if lowerChar c = 111 then 58733 / 100
  else if lowerChar c = 117 then 65925 / 100
  else if lowerChar c = 108 then 392
  else if lowerChar c = 114 then 4153 / 10
  else if lowerChar c = 110 then 34923 / 100
  else if lowerChar c = 115 then 32963 / 100
  else if isAlphaChar c then
    300 + ((((lowerChar c : ℤ) - 97) % 26 : ℤ) : ℚ) * (25 / 2)
  else if isDigitChar c then 250 + ((c : ℚ) - 48) * 20
  else 0

/-- Python `int(...)` on a real value: truncation toward zero. -/
noncomputable def pyTruncR (x : ℝ) : ℤ := if 0 ≤ x then ⌊x⌋ else ⌈x⌉

/-- Python `int(...)` on a rational value: truncation toward zero. -/
def pyTruncQ (q : ℚ) : ℤ := if 0 ≤ q then ⌊q⌋ else ⌈q⌉

/-- `samples_per_symbol = int(self.sample_rate * self.symbol_duration)`
(`synthesizer.py`, line 64). -/
def samplesPerSymbol (rate : ℕ) (dur : ℚ) : ℕ :=
  (pyTruncQ ((rate : ℚ) * dur)).toNat

/-- One sample of the sine synthesis (`synthesizer.py`, lines 70-72):
`int(amplitude * sin(2π * frequency * index / sample_rate))`. -/
noncomputable def sampleValue (rate : ℕ) (amp : ℤ) (freq : ℚ) (k : ℕ) : ℤ :=
  pyTruncR ((amp : ℝ) * Real.sin (2 * Real.pi * (freq : ℝ) * (k : ℝ) / (rate : ℝ)))

/-- The samples emitted for one character (`synthesizer.py`, lines 66-73):
`samples_per_symbol` zero samples for frequency `0`, otherwise one sine
sample per index in `[0, samples_per_symbol)`. -/
noncomputable def charSamples (rate : ℕ) (dur : ℚ) (amp : ℤ) (c : Nat) :
    List ℤ :=
  if pyCharFrequency c = 0 then List.replicate (samplesPerSymbol rate dur) 0
  else (List.range (samplesPerSymbol rate dur)).map
    (sampleValue rate amp (pyCharFrequency c))

/-- `struct.pack("<h", sample)` (`synthesizer.py`, line 73): the two
little-endian bytes of the sample's 16-bit two's complement representation
when the sample fits the signed 16-bit range; any other sample raises
`struct.error("short format requires -32768 <= number <= 32767")`. -/
def int16le (s : ℤ) : Except (List Nat) (List Nat) :=
  if -32768 ≤ s ∧ s ≤ 32767 then
    .ok [((s % 65536) % 256).toNat, ((s % 65536) / 256).toNat]
  else .error (str "short format requires -32768 <= number <= 32767")

/-- The packing loop of `_frames_for_text`: samples are packed left to
right, and the first sample outside the signed 16-bit range raises. -/
def packSamples : List ℤ → Except (List Nat) (List Nat)
  | [] => .ok []
  | s :: rest =>
    match int16le s with
    | .error e => .error e
    | .ok b =>
      match packSamples rest with
      | .error e => .error e
      | .ok bs => .ok (b ++ bs)

/-- `_frames_for_text` (`synthesizer.py`, lines 62-74): the concatenation, in
text order, of the per-character samples, each packed as a signed 16-bit
little-endian value — or the `struct.error` raised by the first sample
outside that range. -/
noncomputable def framesForText (rate : ℕ) (dur : ℚ) (amp : ℤ)
    (text : List Nat) : Except (List Nat) (List Nat) :=
  packSamples ((text.map (charSamples rate dur amp)).flatten)

/-- An unsigned 16-bit little-endian field of the container header. -/
def u16le (n : ℕ) : List ℕ := [n % 256, n / 256 % 256]

/-- An unsigned 32-bit little-endian field of the container header. -/
def u32le (n : ℕ) : List ℕ :=
  [n % 256, n / 256 % 256, n / 65536 % 256, n / 16777216 % 256]

/-- Modelled from the spec: the serialization of the standard uncompressed
single-channel audio container written by the standard-library `wave` module
(not part of this repository's sources) — the conventional 44-byte chunk
header beginning with the 4-byte ASCII magic `RIFF`, for 1 channel and
16-bit little-endian samples at the configured rate, followed by the PCM
data. -/
def wavBytes (rate : ℕ) (data : List ℕ) : List ℕ :=
  str "RIFF" ++ u32le (36 + data.length) ++ str "WAVE" ++
    str "fmt " ++ u32le 16 ++ u16le 1 ++ u16le 1 ++ u32le rate ++
    u32le (rate * 2) ++ u16le 2 ++ u16le 16 ++
    str "data" ++ u32le data.length ++ data

/-- `LibranSynthesizer.synthesize` (`synthesizer.py`, lines 43-53): the
container bytes for the frames of the text; a `struct.error` raised while
computing the frames propagates before any output is produced. -/
noncomputable def synthesize (rate : ℕ) (dur : ℚ) (amp : ℤ)
    (text : List Nat) : Except (List Nat) (List Nat) :=
  (framesForText rate dur amp text).map (wavBytes rate)

/-- C4 counterexample: the synthesizer truncates toward zero, it does not
round to nearest.  For the character `'0'` (frequency `250.0`), sample rate
`1500`, symbol duration `1/250` (six samples per symbol), amplitude `2` and
sample index `1`, the angle is `π/3`, the scaled sine value is `√3 ≈ 1.73`,
the emitted sample is `int(√3) = 1`, while the claimed `round(√3)` is `2`. -/
theorem pyCharFrequency_48 : pyCharFrequency 48 = 250 := by
  norm_num [pyCharFrequency, lowerChar, isUpperChar, isAlphaChar, isLowerChar,
    isDigitChar]

theorem samplesPerSymbol_1500 : samplesPerSymbol 1500 (1 / 250) = 6 := by
  have h6 : ((1500 : ℕ) : ℚ) * (1 / 250) = ((6 : ℕ) : ℚ) := by norm_num
  rw [samplesPerSymbol, h6, pyTruncQ, if_pos (by norm_num), Int.floor_natCast]
  rfl

theorem sample_rounding_counterexample :
    (charSamples 1500 (1 / 250) 2 48)[1]? = some 1 ∧
    round ((2 : ℝ) *
      Real.sin (2 * Real.pi * ((pyCharFrequency 48 : ℚ) : ℝ) * (1 : ℝ) / (1500 : ℝ))) = 2 ∧
    (1 : ℤ) ≠ 2 := by
  have hfreq : pyCharFrequency 48 = 250 := pyCharFrequency_48
  have hspss : samplesPerSymbol 1500 (1 / 250) = 6 := samplesPerSymbol_1500
  have hsq : Real.sqrt 3 ^ 2 = 3 := Real.sq_sqrt (by norm_num)
  have hnn : (0 : ℝ) ≤ Real.sqrt 3 := Real.sqrt_nonneg 3
  have h1 : (1 : ℝ) ≤ Real.sqrt 3 := by nlinarith
  have h2 : Real.sqrt 3 < 2 := by nlinarith
  have h32 : (3 / 2 : ℝ) ≤ Real.sqrt 3 := by nlinarith
  have hsample : sampleValue 1500 2 250 1 = 1 := by
    rw [sampleValue, pyTruncR]
    have harg : ((2 : ℤ) : ℝ) *
        Real.sin (2 * Real.pi * ((250 : ℚ) : ℝ) * ((1 : ℕ) : ℝ) / ((1500 : ℕ) : ℝ)) =
        Real.sqrt 3 := by
      have hang : 2 * Real.pi * ((250 : ℚ) : ℝ) * ((1 : ℕ) : ℝ) / ((1500 : ℕ) : ℝ) =
          Real.pi / 3 := by
        push_cast
        ring
      rw [hang, Real.sin_pi_div_three]
      push_cast
      ring
    rw [harg, if_pos hnn, Int.floor_eq_iff]
    constructor
    · push_cast
      linarith
    · push_cast
      linarith
  refine ⟨?_, ?_, by decide⟩
  · rw [charSamples, if_neg (by rw [hfreq]; norm_num), hfreq, hspss,
      List.getElem?_map, List.getElem?_range (by norm_num)]
    simp [hsample]
  · have hval : (2 : ℝ) * Real.sin (2 * Real.pi * ((pyCharFrequency 48 : ℚ) : ℝ) *
        (1 : ℝ) / (1500 : ℝ)) = Real.sqrt 3 := by
      have hang : 2 * Real.pi * ((pyCharFrequency 48 : ℚ) : ℝ) * (1 : ℝ) / (1500 : ℝ) =
          Real.pi / 3 := by
        rw [hfreq]
        push_cast
        ring
      rw [hang, Real.sin_pi_div_three]
      ring
    rw [hval, round_eq, Int.floor_eq_iff]
    constructor
    · push_cast
      linarith
    · push_cast
      linarith

/-- C4 (amended): for every character whose frequency is non-zero and every
sample index `k` in `[0, samples_per_symbol)`, the synthesizer emits the
sample `int(amplitude * sin(2π * frequency * k / sample_rate))` — Python's
`int`, i.e. truncation toward zero, not rounding to nearest — later packed
as a signed 16-bit little-endian value by `framesForText` when it fits that
range. -/
theorem synthesizer_sample_formula (rate : ℕ) (dur : ℚ) (amp : ℤ) (c : Nat)
    (k : ℕ) (hf : pyCharFrequency c ≠ 0) (hk : k < samplesPerSymbol rate dur) :
    (charSamples rate dur amp c)[k]? =
      some (pyTruncR ((amp : ℝ) *
        Real.sin (2 * Real.pi * ((pyCharFrequency c : ℚ) : ℝ) * (k : ℝ) / (rate : ℝ)))) := by
  rw [charSamples, if_neg hf, List.getElem?_map, List.getElem?_range hk]
  rfl

theorem synthesizer_sample_formula_witness :
    pyCharFrequency 48 ≠ 0 ∧ 0 < samplesPerSymbol 1500 (1 / 250) ∧
    (charSamples 1500 (1 / 250) 2 48)[0]? =
      some (pyTruncR ((2 : ℝ) *
        Real.sin (2 * Real.pi * ((pyCharFrequency 48 : ℚ) : ℝ) * ((0 : ℕ) : ℝ) / ((1500 : ℕ) : ℝ)))) :=
  ⟨by rw [pyCharFrequency_48]; norm_num,
    by rw [samplesPerSymbol_1500]; norm_num,
    synthesizer_sample_formula 1500 (1 / 250) 2 48 0
      (by rw [pyCharFrequency_48]; norm_num)
      (by rw [samplesPerSymbol_1500]; norm_num)⟩

theorem charSamples_length (rate : ℕ) (dur : ℚ) (amp : ℤ) (c : Nat) :
    (charSamples rate dur amp c).length = samplesPerSymbol rate dur := by
  rw [charSamples]
  split_ifs <;> simp

theorem flatten_charSamples_length (rate : ℕ) (dur : ℚ) (amp : ℤ)
    (text : List Nat) :
    ((text.map (charSamples rate dur amp)).flatten).length =
      text.length * samplesPerSymbol rate dur := by
  induction text with
  | nil => simp
  | cons c text ih =>
    simp only [List.map_cons, List.flatten_cons, List.length_append, ih,
      charSamples_length, List.length_cons]
    ring

theorem int16le_ok_length (s : ℤ) (h : -32768 ≤ s ∧ s ≤ 32767) :
    ∃ b, int16le s = .ok b ∧ b.length = 2 := by
  rw [int16le, if_pos h]
  exact ⟨_, rfl, rfl⟩

theorem packSamples_ok (l : List ℤ) (h : ∀ s ∈ l, -32768 ≤ s ∧ s ≤ 32767) :
    ∃ out, packSamples l = .ok out ∧ out.length = 2 * l.length := by
  induction l with
  | nil => exact ⟨[], rfl, rfl⟩
  | cons s rest ih =>
    obtain ⟨b, hb, hbl⟩ := int16le_ok_length s (h s (by simp))
    obtain ⟨bs, hbs, hbsl⟩ := ih (fun t ht => h t (by simp [ht]))
    refine ⟨b ++ bs, ?_, ?_⟩
    · rw [packSamples, hb, hbs]
    · rw [List.length_append, hbl, hbsl, List.length_cons]
      ring

theorem packSamples_error (l : List ℤ)
    (h : ∃ s ∈ l, ¬(-32768 ≤ s ∧ s ≤ 32767)) :
    packSamples l =
      .error (str "short format requires -32768 <= number <= 32767") := by
  induction l with
  | nil => simp at h
  | cons s rest ih =>
    by_cases hs : -32768 ≤ s ∧ s ≤ 32767
    · obtain ⟨t, ht, hto⟩ := h
      rcases List.mem_cons.mp ht with rfl | htr
      · exact absurd hs hto
      · rw [packSamples, int16le, if_pos hs, ih ⟨t, htr, hto⟩]
    · rw [packSamples, int16le, if_neg hs]

theorem sampleValue_bound (rate : ℕ) (amp : ℤ) (freq : ℚ) (k : ℕ)
    (ha : 0 ≤ amp) :
    -amp ≤ sampleValue rate amp freq k ∧ sampleValue rate amp freq k ≤ amp := by
  rw [sampleValue]
  have hcast : (0 : ℝ) ≤ (amp : ℝ) := by exact_mod_cast ha
  have hs1 : Real.sin (2 * Real.pi * (freq : ℝ) * (k : ℝ) / (rate : ℝ)) ≤ 1 :=
    Real.sin_le_one _
  have hs2 : -1 ≤ Real.sin (2 * Real.pi * (freq : ℝ) * (k : ℝ) / (rate : ℝ)) :=
    Real.neg_one_le_sin _
  have hub : (amp : ℝ) * Real.sin (2 * Real.pi * (freq : ℝ) * (k : ℝ) / (rate : ℝ)) ≤
      (amp : ℝ) := by nlinarith
  have hlb : -(amp : ℝ) ≤
      (amp : ℝ) * Real.sin (2 * Real.pi * (freq : ℝ) * (k : ℝ) / (rate : ℝ)) := by
    nlinarith
  rw [pyTruncR]
  split_ifs with h0
  · constructor
    · have hfl : (0 : ℤ) ≤ ⌊(amp : ℝ) * Real.sin
          (2 * Real.pi * (freq : ℝ) * (k : ℝ) / (rate : ℝ))⌋ :=
        Int.floor_nonneg.mpr h0
      omega
    · have := Int.floor_le_floor hub
      rwa [Int.floor_intCast] at this
  · constructor
    · have := Int.ceil_le_ceil hlb
      rw [show -(amp : ℝ) = ((-amp : ℤ) : ℝ) by push_cast; ring,
        Int.ceil_intCast] at this
      exact this
    · have h0' : (amp : ℝ) * Real.sin
          (2 * Real.pi * (freq : ℝ) * (k : ℝ) / (rate : ℝ)) ≤ 0 :=
        le_of_not_le h0
      have := Int.ceil_le_ceil h0'
      rw [show ((0 : ℝ)) = ((0 : ℤ) : ℝ) by push_cast; ring,
        Int.ceil_intCast] at this
      omega

theorem charSamples_bound (rate : ℕ) (dur : ℚ) (amp : ℤ) (c : Nat)
    (ha : 0 ≤ amp) :
    ∀ s ∈ charSamples rate dur amp c, -amp ≤ s ∧ s ≤ amp := by
  intro s hs
  rw [charSamples] at hs
  split_ifs at hs
  · rw [List.eq_of_mem_replicate hs]
    omega
  · obtain ⟨k, _, rfl⟩ := List.mem_map.mp hs
    exact sampleValue_bound rate amp _ k ha

theorem wavBytes_length (rate : ℕ) (data : List ℕ) :
    (wavBytes rate data).length = 44 + data.length := by
  have h1 : (str "RIFF").length = 4 := rfl
  have h2 : (str "WAVE").length = 4 := rfl
  have h3 : (str "fmt ").length = 4 := rfl
  have h4 : (str "data").length = 4 := rfl
  simp only [wavBytes, List.length_append, h1, h2, h3, h4, u16le, u32le,
    List.length_cons, List.length_nil]

theorem samplesPerSymbol_1000 : samplesPerSymbol 1000 1 = 1000 := by
  have h : ((1000 : ℕ) : ℚ) * 1 = ((1000 : ℕ) : ℚ) := mul_one _
  rw [samplesPerSymbol, h, pyTruncQ, if_pos (by norm_num), Int.floor_natCast]
  rfl

/-- C8 counterexample: the synthesizer can raise instead of producing
output.  With sample rate `1000`, symbol duration `1`, the positive
amplitude `33000` and text `"0"` (frequency `250.0`), sample index `1` has
angle `π/2`, so the sample is `int(33000 * 1.0) = 33000 > 32767` and
`struct.pack("<h", ·)` raises `struct.error` — no `RIFF` output of the
claimed length is produced. -/
theorem synthesize_overflow_counterexample :
    synthesize 1000 1 33000 (str "0") =
      Except.error (str "short format requires -32768 <= number <= 32767") := by
  have hsamp : sampleValue 1000 33000 250 1 = 33000 := by
    rw [sampleValue, pyTruncR]
    have hang : 2 * Real.pi * ((250 : ℚ) : ℝ) * ((1 : ℕ) : ℝ) / ((1000 : ℕ) : ℝ) =
        Real.pi / 2 := by
      push_cast
      ring
    have harg : ((33000 : ℤ) : ℝ) * Real.sin
        (2 * Real.pi * ((250 : ℚ) : ℝ) * ((1 : ℕ) : ℝ) / ((1000 : ℕ) : ℝ)) =
        ((33000 : ℤ) : ℝ) := by
      rw [hang, Real.sin_pi_div_two, mul_one]
    rw [harg, if_pos (by norm_num), Int.floor_intCast]
  have h0 : str "0" = [48] := by decide
  have hflat : ((str "0").map (charSamples 1000 1 33000)).flatten =
      charSamples 1000 1 33000 48 := by
    rw [h0]
    simp
  have hpack : packSamples (((str "0").map (charSamples 1000 1 33000)).flatten) =
      .error (str "short format requires -32768 <= number <= 32767") := by
    rw [hflat]
    apply packSamples_error
    refine ⟨sampleValue 1000 33000 250 1, ?_, ?_⟩
    · rw [charSamples, if_neg (by rw [pyCharFrequency_48]; norm_num),
        pyCharFrequency_48, samplesPerSymbol_1000]
      exact List.mem_map.mpr ⟨1, by simp, rfl⟩
    · rw [hsamp]
      norm_num
  rw [synthesize, framesForText, hpack]
  rfl

/-- C8 (amended): for every text, positive sample rate and symbol duration,
and positive amplitude at most `32767` (so that every sample — bounded in
magnitude by the amplitude — fits the signed 16-bit range and
`struct.pack` cannot raise), the synthesizer succeeds, its output begins
with the 4-byte ASCII magic `RIFF`, its PCM body contains exactly
`len(text) * floor(sample_rate * symbol_duration_seconds)` mono 16-bit
samples (two bytes each, after the 44-byte header), and so the audio
duration is `len(text) * symbol_duration_seconds` up to integer-sample
rounding. -/
theorem synthesize_container (rate : ℕ) (dur : ℚ) (amp : ℤ) (text : List Nat)
    (hr : 0 < rate) (hd : 0 < dur) (ha : 0 < amp) (hamp : amp ≤ 32767) :
    ∃ out, synthesize rate dur amp text = Except.ok out ∧
      out.take 4 = str "RIFF" ∧
      out.length = 44 + 2 * (text.length * samplesPerSymbol rate dur) ∧
      ((samplesPerSymbol rate dur : ℤ) = ⌊(rate : ℚ) * dur⌋) := by
  have hrange : ∀ s ∈ (text.map (charSamples rate dur amp)).flatten,
      -32768 ≤ s ∧ s ≤ 32767 := by
    intro s hs
    obtain ⟨l, hl, hsl⟩ := List.mem_flatten.mp hs
    obtain ⟨c, _, rfl⟩ := List.mem_map.mp hl
    have := charSamples_bound rate dur amp c (le_of_lt ha) s hsl
    omega
  obtain ⟨data, hdata, hlen⟩ := packSamples_ok _ hrange
  refine ⟨wavBytes rate data, ?_, ?_, ?_, ?_⟩
  · rw [synthesize, framesForText, hdata]
    rfl
  · rw [wavBytes]
    rw [show (4 : ℕ) = (str "RIFF").length from rfl]
    exact List.take_left _ _
  · rw [wavBytes_length, hlen, flatten_charSamples_length]
  · have hnn : (0 : ℚ) ≤ (rate : ℚ) * dur := by
      apply mul_nonneg
      · exact_mod_cast Nat.zero_le rate
      · exact le_of_lt hd
    rw [samplesPerSymbol, pyTruncQ, if_pos hnn,
      Int.toNat_of_nonneg (Int.floor_nonneg.mpr hnn)]

theorem synthesize_container_witness :
    (0 < 2 ∧ (0 : ℚ) < 1 ∧ (0 : ℤ) < 1 ∧ (1 : ℤ) ≤ 32767) ∧
    (∃ out, synthesize 2 1 1 (str "a") = Except.ok out ∧
      out.take 4 = str "RIFF" ∧
      out.length = 44 + 2 * ((str "a").length * samplesPerSymbol 2 1) ∧
      ((samplesPerSymbol 2 1 : ℤ) = ⌊(2 : ℚ) * 1⌋)) :=
  ⟨⟨by decide, by norm_num, by decide, by decide⟩,
    synthesize_container 2 1 1 (str "a") (by decide) (by norm_num) (by decide)
      (by decide)⟩

end LibranVoice
